import Mathlib

/-!
Verification of the grid trading core of the jobot repository.

Shallow embedding of:
- `app/services/trading_strategy.py` (compute_grid, decide_trade,
  reconstruct_state_from_trades),
- `app/workers/tasks.py` (the per-tick trade-log append of run_trading_bot),
- `app/services/backtest_engine.py` (run_backtest),
- `app/services/parameter_optimizer.py` (generate_parameter_grid,
  optimize_parameters),
- `app/workers/screening_tasks.py` (update_progress / run_screening
  publication trace).

Python floats are modelled as exact rationals (ℚ); Python ints as ℤ/ℕ.
Python list indexing that can raise IndexError is modelled with an explicit
error monad.  The strategy constants (FEE_PCT, BUY_PULLBACK_PCT,
SELL_PULLBACK_PCT) are read from a global settings object in the source and
are passed here as an explicit `StrategySettings` parameter.
-/

namespace Jobot

/-- Strategy constants read from `app.core.config.settings` in the source. -/
structure StrategySettings where
  buy_pullback_pct : ℚ
  sell_pullback_pct : ℚ
  fee_pct : ℚ
deriving DecidableEq, Repr

/-- The bot configuration fields consumed by the strategy engine
(`TradingBot` columns / the `SimpleNamespace` built by the backtest). -/
structure TradingBot where
  min_price : ℚ
  max_price : ℚ
  total_amount : ℚ
  sell_percentage : ℚ
  grid_levels : ℤ
deriving DecidableEq, Repr

/-- Validity of a configuration as stated by the spec data model:
`max_price > min_price > 0`, `total_amount > 0`, `grid_levels ≥ 1`,
`sell_percentage ∈ (0, 100]`. -/
def ValidCfg (bot : TradingBot) : Prop :=
  0 < bot.min_price ∧ bot.min_price < bot.max_price ∧ 0 < bot.total_amount ∧
    1 ≤ bot.grid_levels ∧ 0 < bot.sell_percentage ∧ bot.sell_percentage ≤ 100

instance (bot : TradingBot) : Decidable (ValidCfg bot) := by
  unfold ValidCfg; infer_instance

/-- One open position dict: `{"qty", "entry", "highest", "fee"}`. -/
structure Position where
  qty : ℚ
  entry : ℚ
  highest : ℚ
  fee : ℚ
deriving DecidableEq, Repr

/-- The runtime state dict persisted in Redis:
`{"positions", "lowest_price", "grid_prices", "next_grid_index"}`. -/
structure BotState where
  positions : List Position
  lowest_price : Option ℚ
  grid_prices : List ℚ
  next_grid_index : ℕ
deriving DecidableEq, Repr

inductive Side
  | buy
  | sell
deriving DecidableEq, Repr

/-- One decision dict `{"side", "quantity", "entry_price"}`. -/
structure Decision where
  side : Side
  quantity : ℚ
  entry_price : ℚ
deriving DecidableEq, Repr

/-- `compute_grid(max_price, min_price, grid_levels)`:
`[max_price - i * step for i in range(1, grid_levels)]` with
`step = (max_price - min_price) / grid_levels`, guarded by
`grid_levels <= 1 or max_price <= min_price`. -/
def compute_grid (max_price min_price : ℚ) (grid_levels : ℤ) : List ℚ :=
  if grid_levels ≤ 1 ∨ max_price ≤ min_price then []
  else
    let step := (max_price - min_price) / (grid_levels : ℚ)
    (List.range (grid_levels - 1).toNat).map
      (fun (i : ℕ) => max_price - ((i : ℚ) + 1) * step)

/-- The `for i, gp in enumerate(grid_prices): if gp < price: idx = i; break`
loop (default `len(grid_prices)`), used both in `decide_trade` and in
`reconstruct_state_from_trades`. -/
def firstGridIndexBelow (grid_prices : List ℚ) (price : ℚ) : ℕ :=
  match grid_prices.findIdx? (fun gp => decide (gp < price)) with
  | some i => i
  | none => grid_prices.length

/-- The sell test of the sell scan:
`gain_pct >= sell_percentage / 100` and
`price <= highest * (1 - sell_pullback_pct)` where
`gain_pct = price / entry - 1`. -/
def sellCondition (s : StrategySettings) (bot : TradingBot) (current_price : ℚ)
    (p : Position) : Bool :=
  decide (bot.sell_percentage / 100 ≤ current_price / p.entry - 1) &&
    decide (current_price ≤ p.highest * (1 - s.sell_pullback_pct))

/-- `if current_price > pos["highest"]: pos["highest"] = current_price`. -/
def updateHighest (current_price : ℚ) (p : Position) : Position :=
  if p.highest < current_price then { p with highest := current_price } else p

/-- The position dict pushed on a buy:
`{"qty": qty, "entry": price, "highest": price, "fee": qty*price*fee_pct}`
with `qty = total_amount / grid_levels / price`. -/
def mkPosition (s : StrategySettings) (bot : TradingBot) (price : ℚ) : Position :=
  let qty := bot.total_amount / (bot.grid_levels : ℚ) / price
  ⟨qty, price, price, qty * price * s.fee_pct⟩

/-- The decision dict appended on a buy. -/
def buyDecision (bot : TradingBot) (price : ℚ) : Decision :=
  ⟨Side.buy, bot.total_amount / (bot.grid_levels : ℚ) / price, price⟩

/-- `decide_trade(bot, current_price, state, previous_price)` from
`app/services/trading_strategy.py`.  Python's in-place removal
`positions.remove(pos)` over the collected `to_close` list removes, at the
value level, exactly the positions satisfying the sell condition (the
condition is a function of the position's value), so it is modelled by a
filter. -/
def decide_trade (s : StrategySettings) (bot : TradingBot) (current_price : ℚ)
    (state : BotState) (previous_price : Option ℚ) : List Decision × BotState :=
  -- === No positions: first buy or restart after all sold ===
  if state.positions.isEmpty then
    if bot.min_price ≤ current_price ∧ current_price ≤ bot.max_price then
      let grid_prices := compute_grid bot.max_price bot.min_price bot.grid_levels
      ([buyDecision bot current_price],
        { positions := [mkPosition s bot current_price],
          lowest_price := none,
          grid_prices := grid_prices,
          next_grid_index := firstGridIndexBelow grid_prices current_price })
    else ([], state)
  else
    -- === Update lowest_price tracking ===
    let lowest := match state.lowest_price with
      | none => current_price
      | some lp => if current_price < lp then current_price else lp
    -- === Update highest per position ===
    let positions := state.positions.map (updateHighest current_price)
    -- === Check sells (collected, then removed) ===
    let sellDecisions := (positions.filter (sellCondition s bot current_price)).map
      (fun p => (⟨Side.sell, p.qty, current_price⟩ : Decision))
    let remaining := positions.filter (fun p => !(sellCondition s bot current_price p))
    if remaining.isEmpty then
      -- If all positions closed, reset for next cycle
      (sellDecisions, ⟨[], none, [], 0⟩)
    else
      -- === Check grid buy ===
      if previous_price.isSome = true ∧
          state.next_grid_index < state.grid_prices.length ∧
          current_price ≤ bot.max_price ∧
          current_price ≤ state.grid_prices.getD state.next_grid_index 0 ∧
          current_price < previous_price.getD 0 ∧
          lowest * (1 + s.buy_pullback_pct) ≤ current_price then
        (sellDecisions ++ [buyDecision bot current_price],
          { positions := remaining ++ [mkPosition s bot current_price],
            lowest_price := some current_price,
            grid_prices := state.grid_prices,
            next_grid_index := state.next_grid_index + 1 })
      else
        (sellDecisions, ⟨remaining, some lowest, state.grid_prices, state.next_grid_index⟩)

/-- A row of the `trades` table (`trade_type`, `price`, `quantity`,
`created_at`); timestamps are abstracted to ℕ. -/
structure Trade where
  trade_type : Side
  price : ℚ
  quantity : ℚ
  created_at : ℕ
deriving DecidableEq, Repr

/-- The trade rows appended by `run_trading_bot` for one tick's decisions
(`trade_type=side, price=entry_price, quantity=quantity`), in decision
order, with strictly increasing `created_at` starting at `ts`. -/
def decisionsToTrades : List Decision → ℕ → List Trade
  | [], _ => []
  | d :: ds, ts => ⟨d.side, d.entry_price, d.quantity, ts⟩ :: decisionsToTrades ds (ts + 1)

/-- The idle state (the initial state of a bot and of a backtest). -/
def idleState : BotState := ⟨[], none, [], 0⟩

/-- The tick loop of `run_trading_bot` restricted to its strategy effects:
per tick, call `decide_trade`, append one trade row per decision to the
log, persist the new state, set `previous_price`. -/
def runTicksFrom (s : StrategySettings) (bot : TradingBot) :
    BotState → Option ℚ → List Trade → List ℚ → BotState × List Trade
  | st, _, log, [] => (st, log)
  | st, prev, log, p :: ps =>
    let r := decide_trade s bot p st prev
    runTicksFrom s bot r.2 (some p) (log ++ decisionsToTrades r.1 log.length) ps

/-- A whole run from the idle state with an empty log. -/
def runTicks (s : StrategySettings) (bot : TradingBot) (prices : List ℚ) :
    BotState × List Trade :=
  runTicksFrom s bot idleState none [] prices

/-- The replay step of `reconstruct_state_from_trades`: BUY pushes a
position, SELL pops the front when the list is nonempty (`tail [] = []`
matches the `and open_positions` guard). -/
def replayTrade (s : StrategySettings) (acc : List Position) (t : Trade) : List Position :=
  match t.trade_type with
  | Side.buy => acc ++ [⟨t.quantity, t.price, t.price, t.quantity * t.price * s.fee_pct⟩]
  | Side.sell => acc.tail

/-- Ordering of trades by `created_at` (the `sorted(..., key=...)` key). -/
def tradeLe (a b : Trade) : Prop := a.created_at ≤ b.created_at

instance : DecidableRel tradeLe := fun a b => inferInstanceAs (Decidable (_ ≤ _))

/-- `reconstruct_state_from_trades(bot, trades)` from
`app/services/trading_strategy.py`. -/
def reconstruct_state_from_trades (s : StrategySettings) (bot : TradingBot)
    (trades : List Trade) : BotState :=
  -- Sort chronologically (oldest first)
  let sorted_trades := List.insertionSort tradeLe trades
  -- Replay trades: BUY pushes, SELL pops (FIFO)
  let open_positions := sorted_trades.foldl (replayTrade s) []
  match open_positions with
  | [] => ⟨[], none, [], 0⟩
  | p0 :: rest =>
    let grid_prices := compute_grid bot.max_price bot.min_price bot.grid_levels
    -- next_grid_index = start_index + (len(open_positions) - 1)
    let next_grid_index := firstGridIndexBelow grid_prices p0.entry + rest.length
    -- Conservative lowest_price: minimum entry among open positions
    let lowest := (rest.map Position.entry).foldl min p0.entry
    ⟨p0 :: rest, some lowest, grid_prices, next_grid_index⟩

/-! ## Backtest engine (`app/services/backtest_engine.py`) -/

/-- Python `round(x, ndigits)` on the exact rational value.  (Python uses
banker's rounding on floats; the two differ only at exact half-way points,
which none of the claims touch.) -/
def roundTo (ndigits : ℕ) (x : ℚ) : ℚ := (round (x * 10 ^ ndigits) : ℚ) / 10 ^ ndigits

/-- The `BacktestResult` dataclass.  `sharpe_ratio` involves a real-valued
square root and feeds no other computation; it is the one field omitted
from the embedding. -/
structure BacktestResult where
  total_pnl : ℚ
  total_pnl_pct : ℚ
  num_trades : ℕ
  num_buys : ℕ
  num_sells : ℕ
  win_rate : ℚ
  max_drawdown : ℚ
  final_open_positions : ℕ
  unrealized_pnl : ℚ
  min_price : ℚ
  max_price : ℚ
  grid_levels : ℤ
  sell_percentage : ℚ
  total_amount : ℚ
deriving DecidableEq, Repr

/-- The per-decision accounting state of `run_backtest`'s inner loop. -/
structure BTAcc where
  open_buys : List (ℚ × ℚ)
  realized_pnl : ℚ
  winning_sells : ℕ
  num_buys : ℕ
  num_sells : ℕ
deriving DecidableEq, Repr

/-- `for d in decisions: ...` — one decision of one tick.  A buy appends to
`open_buys`; a sell increments `num_sells` and, when `open_buys` is
nonempty, matches the oldest open buy (FIFO) and realizes its P&L. -/
def applyDecision (fee_pct : ℚ) (acc : BTAcc) (d : Decision) : BTAcc :=
  match d.side with
  | Side.buy =>
    { acc with num_buys := acc.num_buys + 1,
               open_buys := acc.open_buys ++ [(d.entry_price, d.quantity)] }
  | Side.sell =>
    match acc.open_buys with
    | [] => { acc with num_sells := acc.num_sells + 1 }
    | (buy_price, buy_qty) :: rest =>
      let sell_value := d.entry_price * d.quantity
      let sell_fee := sell_value * fee_pct
      let buy_cost := buy_price * buy_qty
      let buy_fee := buy_cost * fee_pct
      let trade_pnl := sell_value - sell_fee - buy_cost - buy_fee
      { acc with num_sells := acc.num_sells + 1,
                 open_buys := rest,
                 realized_pnl := acc.realized_pnl + trade_pnl,
                 winning_sells := acc.winning_sells + if 0 < trade_pnl then 1 else 0 }

/-- The full loop state of `run_backtest` (strategy state, previous price,
accounting, equity peak and drawdown). -/
structure BTLoop where
  state : BotState
  prev : Option ℚ
  acc : BTAcc
  peak_equity : ℚ
  max_drawdown : ℚ
deriving DecidableEq, Repr

/-- One tick of `run_backtest`: run `decide_trade`, account every decision,
then update the equity curve (`invested`, `open_value`, peak, drawdown). -/
def btStep (s : StrategySettings) (bot : TradingBot) (total_amount : ℚ)
    (L : BTLoop) (price : ℚ) : BTLoop :=
  let r := decide_trade s bot price L.state L.prev
  let acc := r.1.foldl (applyDecision s.fee_pct) L.acc
  let invested := (acc.open_buys.map (fun b => b.1 * b.2 + b.1 * b.2 * s.fee_pct)).sum
  let open_value := (acc.open_buys.map (fun b => b.2 * price)).sum
  let equity := total_amount + acc.realized_pnl + (open_value - invested)
  let peak := if L.peak_equity < equity then equity else L.peak_equity
  let drawdown := (peak - equity) / peak
  let max_dd := if 0 < peak ∧ L.max_drawdown < drawdown then drawdown else L.max_drawdown
  ⟨r.2, some price, acc, peak, max_dd⟩

/-- `run_backtest(symbol, close_prices, min_price, max_price, total_amount,
sell_percentage, grid_levels)`. -/
def run_backtest (s : StrategySettings) (symbol : String) (close_prices : List ℚ)
    (min_price max_price total_amount sell_percentage : ℚ) (grid_levels : ℤ) :
    BacktestResult :=
  let _ := symbol
  let bot : TradingBot := ⟨min_price, max_price, total_amount, sell_percentage, grid_levels⟩
  let init : BTLoop := ⟨idleState, none, ⟨[], 0, 0, 0, 0⟩, total_amount, 0⟩
  let L := close_prices.foldl (btStep s bot total_amount) init
  let last_price := match close_prices.getLast? with
    | some p => p
    | none => 0
  let unrealized_pnl := (L.acc.open_buys.map
    (fun b => b.2 * last_price - (b.1 * b.2 + b.1 * b.2 * s.fee_pct))).sum
  let total_pnl := L.acc.realized_pnl + unrealized_pnl
  let win_rate := if 0 < L.acc.num_sells then
    (L.acc.winning_sells : ℚ) / (L.acc.num_sells : ℚ) else 0
  { total_pnl := roundTo 6 total_pnl,
    total_pnl_pct := if 0 < total_amount then roundTo 4 (total_pnl / total_amount * 100) else 0,
    num_trades := L.acc.num_buys + L.acc.num_sells,
    num_buys := L.acc.num_buys,
    num_sells := L.acc.num_sells,
    win_rate := roundTo 4 win_rate,
    max_drawdown := roundTo 6 L.max_drawdown,
    final_open_positions := L.acc.open_buys.length,
    unrealized_pnl := roundTo 6 unrealized_pnl,
    min_price := min_price,
    max_price := max_price,
    grid_levels := grid_levels,
    sell_percentage := sell_percentage,
    total_amount := total_amount }

/-! ## Parameter optimizer (`app/services/parameter_optimizer.py`) -/

/-- The Python exceptions the optimizer can raise. -/
inductive PyError
  | indexError
  | valueError (msg : String)
deriving DecidableEq, Repr

def DEFAULT_GRID_LEVELS : List ℤ := [3, 5, 7, 10, 15, 20]

def DEFAULT_SELL_PERCENTAGES : List ℚ := [1/2, 1, 3/2, 2, 3, 5]

def SCREENING_GRID_LEVELS : List ℤ := [5, 10, 15]

def SCREENING_SELL_PERCENTAGES : List ℚ := [1, 2, 3, 5]

/-- Python list indexing `l[i]`: a negative index counts from the end; an
index out of range raises IndexError. -/
def pyGet (l : List ℚ) (i : ℤ) : Except PyError ℚ :=
  let j := if i < 0 then i + l.length else i
  if h : 0 ≤ j ∧ j.toNat < l.length then Except.ok (l.get ⟨j.toNat, h.2⟩)
  else Except.error PyError.indexError

/-- One `{"min_price", "max_price", "grid_levels", "sell_percentage"}`
combination dict. -/
structure ParamCombo where
  min_price : ℚ
  max_price : ℚ
  grid_levels : ℤ
  sell_percentage : ℚ
deriving DecidableEq, Repr

/-- `generate_parameter_grid(close_prices, grid_levels_options,
sell_percentage_options)`.  The inner `percentile` helper indexes
`prices_sorted[min(int(n*p/100), n-1)]`, which on an empty list accesses
position `-1` and raises IndexError; `sorted(set(...))` is modelled by
dedup-then-sort. -/
def generate_parameter_grid (close_prices : List ℚ)
    (grid_levels_options : Option (List ℤ)) (sell_percentage_options : Option (List ℚ)) :
    Except PyError (List ParamCombo) := do
  let glo := grid_levels_options.getD DEFAULT_GRID_LEVELS
  let spo := sell_percentage_options.getD DEFAULT_SELL_PERCENTAGES
  let prices_sorted := List.insertionSort (fun a b : ℚ => a ≤ b) close_prices
  let n := close_prices.length
  let percentile := fun (p : ℕ) =>
    pyGet prices_sorted (min ((n * p / 100 : ℕ) : ℤ) ((n : ℤ) - 1))
  let p5 ← percentile 5
  let p10 ← percentile 10
  let p15 ← percentile 15
  let p25 ← percentile 25
  let p75 ← percentile 75
  let p85 ← percentile 85
  let p90 ← percentile 90
  let p95 ← percentile 95
  let min_candidates := List.insertionSort (fun a b : ℚ => a ≤ b) ([p5, p10, p15, p25].dedup)
  let max_candidates := List.insertionSort (fun a b : ℚ => a ≤ b) ([p75, p85, p90, p95].dedup)
  let combos := min_candidates.flatMap (fun min_p =>
    max_candidates.flatMap (fun max_p =>
      if max_p ≤ min_p * (102 / 100) then []
      else glo.flatMap (fun gl => spo.map (fun sp =>
        (⟨roundTo 8 min_p, roundTo 8 max_p, gl, sp⟩ : ParamCombo)))))
  return combos

/-- The `OptimizationResult` dataclass. -/
structure OptimizationResult where
  best_params : BacktestResult
  test_result : BacktestResult
  all_results : List BacktestResult
  train_size : ℕ
  test_size : ℕ
deriving DecidableEq, Repr

/-- Ordering of backtest results by `total_pnl_pct` descending (the
`results.sort(key=..., reverse=True)` of the optimizer). -/
def btPnlGe (a b : BacktestResult) : Prop := b.total_pnl_pct ≤ a.total_pnl_pct

instance : DecidableRel btPnlGe := fun a b => inferInstanceAs (Decidable (_ ≤ _))

/-- `optimize_parameters(symbol, close_prices, total_amount, train_ratio,
grid_levels_options, sell_percentage_options, top_n)`:
`split_idx = int(len(close_prices) * train_ratio)`, generate the grid from
the train slice, backtest every combination on the train slice, sort by
`total_pnl_pct` descending, raise ValueError when empty, re-run the best
on the test slice. -/
def optimize_parameters (s : StrategySettings) (symbol : String) (close_prices : List ℚ)
    (total_amount : ℚ) ( train_ratio : ℚ)
    (grid_levels_options : Option (List ℤ)) (sell_percentage_options : Option (List ℚ))
    (top_n : ℕ) : Except PyError OptimizationResult := do
  let split_idx := (⌊(close_prices.length : ℚ) * train_ratio⌋).toNat
  let train_prices := close_prices.take split_idx
  let test_prices := close_prices.drop split_idx
  let combos ← generate_parameter_grid train_prices grid_levels_options sell_percentage_options
  let results := combos.map (fun c =>
    run_backtest s symbol train_prices c.min_price c.max_price total_amount
      c.sell_percentage c.grid_levels)
  let results := List.insertionSort btPnlGe results
  match results with
  | [] => Except.error (PyError.valueError ("No valid parameter combinations for " ++ symbol))
  | best :: _ =>
    let test_result := run_backtest s symbol test_prices best.min_price best.max_price
      total_amount best.sell_percentage best.grid_levels
    return ⟨best, test_result, results.take top_n, train_prices.length, test_prices.length⟩

/-! ## Screening job (`app/workers/screening_tasks.py`)

The job's external effects (candle fetch, optimization on the fetched
data) are abstracted into a per-symbol outcome: `some row` when the symbol
produced a result row to append, `none` when it was skipped (fewer than
200 klines) or failed with a logged warning.  Only the published progress
blobs are modelled; their metric payload beyond the `best_pnl_pct` sort
key is opaque for the published invariants. -/

/-- One entry of the published `results` list, reduced to its identity and
its sort key. -/
structure ResultRow where
  symbol : String
  best_pnl_pct : ℚ
deriving DecidableEq, Repr

/-- Ordering of result rows by `best_pnl_pct` descending. -/
def pnlGe (a b : ResultRow) : Prop := b.best_pnl_pct ≤ a.best_pnl_pct

instance : DecidableRel pnlGe := fun a b => inferInstanceAs (Decidable (_ ≤ _))

instance : IsTotal ResultRow pnlGe := ⟨fun a b => le_total b.best_pnl_pct a.best_pnl_pct⟩

instance : IsTrans ResultRow pnlGe := ⟨fun _ _ _ h₁ h₂ => le_trans h₂ h₁⟩

/-- `sorted(results, key=lambda r: r["best_pnl_pct"], reverse=True)`. -/
def sortResultsDesc (results : List ResultRow) : List ResultRow :=
  List.insertionSort pnlGe results

/-- The progress blob written by `update_progress` (timestamps omitted). -/
structure ProgressBlob where
  status : String
  progress : ℕ
  total_symbols : ℕ
  processed_symbols : ℕ
  results : List ResultRow
deriving DecidableEq, Repr

/-- `update_progress(processed, status)`: `progress = int(processed / total
* 100)` when `total > 0` else `0`; `results` sorted by `best_pnl_pct`
descending and truncated to 50. -/
def update_progress (total : ℕ) (results : List ResultRow) (processed : ℕ)
    (status : String) : ProgressBlob :=
  ⟨status, if 0 < total then processed * 100 / total else 0, total, processed,
    (sortResultsDesc results).take 50⟩

/-- The `for i, symbol in enumerate(symbols)` loop: each iteration appends
its outcome row (if any) and publishes exactly one progress blob with
`processed = i + 1`.  Returns the published blobs and the final collected
rows. -/
def screeningLoop (total : ℕ) : List (Option ResultRow) → List ResultRow → ℕ →
    List ProgressBlob × List ResultRow
  | [], results, _ => ([], results)
  | o :: os, results, i =>
    let results' := match o with
      | some r => results ++ [r]
      | none => results
    let rest := screeningLoop total os results' (i + 1)
    (update_progress total results' (i + 1) "running" :: rest.1, rest.2)

/-- The full publication trace of `run_screening`: the initial
`update_progress(0)`, one blob per symbol, and the final
`update_progress(total, status="completed")`. -/
def run_screening_pubs (outcomes : List (Option ResultRow)) : List ProgressBlob :=
  let total := outcomes.length
  let L := screeningLoop total outcomes [] 0
  update_progress total [] 0 "running" :: L.1 ++ [update_progress total L.2 total "completed"]

/-! ## Helper notions and lemmas -/

/-- Number of BUY decisions in a decision list. -/
def countBuys (ds : List Decision) : ℕ :=
  (ds.filter (fun d => d.side == Side.buy)).length

/-- Number of SELL decisions in a decision list. -/
def countSells (ds : List Decision) : ℕ :=
  (ds.filter (fun d => d.side == Side.sell)).length

/-- The claim's per-call ordering property (C3): every BUY decision
precedes every SELL decision in the returned list. -/
def buysPrecedeSells (ds : List Decision) : Prop :=
  ∀ i j : Fin ds.length,
    (ds.get i).side = Side.buy → (ds.get j).side = Side.sell → (i : ℕ) < (j : ℕ)

/-- The order the code actually emits: every SELL decision precedes every
BUY decision. -/
def sellsPrecedeBuys (ds : List Decision) : Prop :=
  ∀ i j : Fin ds.length,
    (ds.get i).side = Side.sell → (ds.get j).side = Side.buy → (i : ℕ) < (j : ℕ)

/-- The spec's BotState invariant (C4): an empty positions list forces the
other three fields to their idle values. -/
def IdleInvariant (st : BotState) : Prop :=
  st.positions = [] →
    st.lowest_price = none ∧ st.grid_prices = [] ∧ st.next_grid_index = 0

/-- Concrete strategy settings for the counterexamples and witnesses
(the spec's example constants `0.002`). -/
def exSettings : StrategySettings := ⟨2/1000, 2/1000, 2/1000⟩

/-- Concrete valid configuration for the counterexamples and witnesses
(the spec's scenario configuration). -/
def exBot : TradingBot := ⟨100, 200, 1000, 2, 10⟩

theorem length_filter_add_length_filter_not (l : List Position) (p : Position → Bool) :
    (l.filter p).length + (l.filter (fun a => !p a)).length = l.length := by
  induction l with
  | nil => rfl
  | cons a l ih =>
    by_cases h : p a = true <;> simp [List.filter_cons, h, ← ih] <;> omega

/-! ## C6: compute_grid -/

theorem compute_grid_eq_map (mx mn : ℚ) (N : ℤ) (h : ¬(N ≤ 1 ∨ mx ≤ mn)) :
    compute_grid mx mn N =
      (List.range (N - 1).toNat).map
        (fun (i : ℕ) => mx - ((i : ℚ) + 1) * ((mx - mn) / (N : ℚ))) := by
  unfold compute_grid
  rw [if_neg h]

theorem compute_grid_eq_nil (mx mn : ℚ) (N : ℤ) (h : N ≤ 1 ∨ mx ≤ mn) :
    compute_grid mx mn N = [] := by
  unfold compute_grid
  rw [if_pos h]

/-- C6.  For `max > min > 0` and integer `N > 1`, `compute_grid max min N`
returns exactly `N − 1` prices, strictly decreasing, each strictly between
`min` and `max`, the i-th (1-indexed) equal to `max − i·(max−min)/N`; for
`N ≤ 1` or `max ≤ min` it returns `[]`. -/
theorem compute_grid_correct (mx mn : ℚ) (N : ℤ) :
    (mn < mx → 0 < mn → 1 < N →
      (compute_grid mx mn N).length = (N - 1).toNat ∧
      (compute_grid mx mn N).Pairwise (fun a b => b < a) ∧
      (∀ x ∈ compute_grid mx mn N, mn < x ∧ x < mx) ∧
      (∀ (i : ℕ) (h : i < (compute_grid mx mn N).length),
        (compute_grid mx mn N).get ⟨i, h⟩ = mx - ((i : ℚ) + 1) * (mx - mn) / (N : ℚ))) ∧
    ((N ≤ 1 ∨ mx ≤ mn) → compute_grid mx mn N = []) := by
  constructor
  · intro hmx _hmn hN
    have hguard : ¬(N ≤ 1 ∨ mx ≤ mn) := by push_neg; exact ⟨hN, hmx⟩
    have hNQ : (0 : ℚ) < (N : ℚ) := by exact_mod_cast lt_trans one_pos hN
    have hstep : 0 < (mx - mn) / (N : ℚ) := div_pos (by linarith) hNQ
    have hbound : ∀ i : ℕ, i < (N - 1).toNat → ((i : ℚ) + 1) ≤ (N : ℚ) - 1 := by
      intro i hi
      have h1 : (i : ℤ) < N - 1 := by omega
      have h2 : (i : ℤ) + 1 ≤ N - 1 := by omega
      calc ((i : ℚ) + 1) = (((i : ℤ) + 1 : ℤ) : ℚ) := by push_cast; ring
        _ ≤ ((N - 1 : ℤ) : ℚ) := by exact_mod_cast h2
        _ = (N : ℚ) - 1 := by push_cast; ring
    rw [compute_grid_eq_map mx mn N hguard]
    refine ⟨?_, ?_, ?_, ?_⟩
    · rw [List.length_map, List.length_range]
    · rw [List.pairwise_map]
      refine List.Pairwise.imp ?_ (List.pairwise_lt_range _)
      intro a b hab
      have hmul : ((a : ℚ) + 1) * ((mx - mn) / (N : ℚ)) <
          ((b : ℚ) + 1) * ((mx - mn) / (N : ℚ)) := by
        apply mul_lt_mul_of_pos_right _ hstep
        have : (a : ℚ) < (b : ℚ) := by exact_mod_cast hab
        linarith
      linarith
    · intro x hx
      simp only [List.mem_map, List.mem_range] at hx
      obtain ⟨i, hi, rfl⟩ := hx
      have hle := hbound i hi
      have hNstep : (N : ℚ) * ((mx - mn) / (N : ℚ)) = mx - mn :=
        mul_div_cancel₀ _ (ne_of_gt hNQ)
      constructor
      · have hlt : ((i : ℚ) + 1) * ((mx - mn) / (N : ℚ)) <
            (N : ℚ) * ((mx - mn) / (N : ℚ)) := by
          apply mul_lt_mul_of_pos_right _ hstep
          linarith
        rw [hNstep] at hlt
        linarith
      · have h1 : (0 : ℚ) < ((i : ℚ) + 1) := by positivity
        nlinarith
    · intro i h
      simp only [List.get_eq_getElem, List.getElem_map, List.getElem_range]
      ring
  · intro h
    exact compute_grid_eq_nil mx mn N h

/-- Witness for C6 at `max = 200`, `min = 100`, `N = 10`. -/
theorem compute_grid_correct_witness :
    (compute_grid 200 100 10).length = ((10 : ℤ) - 1).toNat ∧
      ∀ x ∈ compute_grid 200 100 10, (100 : ℚ) < x ∧ x < 200 := by
  have h := (compute_grid_correct 200 100 10).1 (by norm_num) (by norm_num) (by norm_num)
  exact ⟨h.1, h.2.2.1⟩

/-! ## C5: the idle branch of decide_trade -/

/-- C5.  Entered with `positions = []`: at most one BUY decision, a BUY is
emitted iff `min_price ≤ price ≤ max_price` (both inclusive), and
otherwise no decisions are emitted and the state is returned unchanged. -/
theorem decide_trade_idle (s : StrategySettings) (bot : TradingBot) (price : ℚ)
    (state : BotState) (prev : Option ℚ) (h : state.positions = []) :
    countBuys (decide_trade s bot price state prev).1 ≤ 1 ∧
    ((∃ d ∈ (decide_trade s bot price state prev).1, d.side = Side.buy) ↔
      bot.min_price ≤ price ∧ price ≤ bot.max_price) ∧
    (¬(bot.min_price ≤ price ∧ price ≤ bot.max_price) →
      (decide_trade s bot price state prev).1 = [] ∧
      (decide_trade s bot price state prev).2 = state) := by
  have hempty : state.positions.isEmpty = true := by simp [h]
  rw [decide_trade, if_pos hempty]
  by_cases hr : bot.min_price ≤ price ∧ price ≤ bot.max_price
  · rw [if_pos hr]
    refine ⟨?_, ?_, ?_⟩
    · simp [countBuys, buyDecision]
    · exact iff_of_true ⟨buyDecision bot price, List.mem_singleton_self _, rfl⟩ hr
    · intro hc; exact absurd hr hc
  · rw [if_neg hr]
    refine ⟨?_, ?_, ?_⟩
    · simp [countBuys]
    · exact iff_of_false (by simp) hr
    · intro _; exact ⟨rfl, rfl⟩

/-- Witness for C5 at a concrete idle call (cfg `100–200`, price `150`). -/
theorem decide_trade_idle_witness :
    countBuys (decide_trade ⟨2/1000, 2/1000, 2/1000⟩ ⟨100, 200, 1000, 2, 10⟩ 150
        idleState none).1 ≤ 1 ∧
    ((∃ d ∈ (decide_trade ⟨2/1000, 2/1000, 2/1000⟩ ⟨100, 200, 1000, 2, 10⟩ 150
        idleState none).1, d.side = Side.buy) ↔
      (100 : ℚ) ≤ 150 ∧ (150 : ℚ) ≤ 200) :=
  ⟨(decide_trade_idle _ _ _ _ _ rfl).1, (decide_trade_idle _ _ _ _ _ rfl).2.1⟩

/-! ## The shape of one decide_trade call

Every call returns a list of SELL decisions followed by at most one BUY
decision, with the bookkeeping identity
`|positions'| + #sells = |positions| + #buys`. -/

theorem decide_trade_shape (s : StrategySettings) (bot : TradingBot) (price : ℚ)
    (st : BotState) (prev : Option ℚ) :
    ∃ ks bs : List Decision,
      (decide_trade s bot price st prev).1 = ks ++ bs ∧
      (∀ d ∈ ks, d.side = Side.sell) ∧
      (∀ d ∈ bs, d.side = Side.buy) ∧
      bs.length ≤ 1 ∧
      ks.length ≤ st.positions.length ∧
      (decide_trade s bot price st prev).2.positions.length + ks.length
        = st.positions.length + bs.length := by
  by_cases hE : st.positions.isEmpty = true
  · have hnil : st.positions = [] := List.isEmpty_iff.mp hE
    rw [decide_trade, if_pos hE]
    by_cases hr : bot.min_price ≤ price ∧ price ≤ bot.max_price
    · rw [if_pos hr]
      refine ⟨[], [buyDecision bot price], rfl, by simp, ?_, by simp, by simp, by simp [hnil]⟩
      intro d hd
      rw [List.mem_singleton] at hd
      rw [hd]
      rfl
    · rw [if_neg hr]
      exact ⟨[], [], rfl, by simp, by simp, by simp, by simp, by simp⟩
  · rw [decide_trade, if_neg hE]
    simp only []
    set M := st.positions.map (updateHighest price) with hM
    set sells := (M.filter (sellCondition s bot price)).map
      (fun p => (⟨Side.sell, p.qty, price⟩ : Decision)) with hsells
    set remaining := M.filter (fun p => !(sellCondition s bot price p)) with hrem
    have hMlen : M.length = st.positions.length := by rw [hM, List.length_map]
    have hpart : (M.filter (sellCondition s bot price)).length + remaining.length
        = st.positions.length := by
      rw [hrem, ← hMlen]
      exact length_filter_add_length_filter_not M (sellCondition s bot price)
    have hsellsLen : sells.length = (M.filter (sellCondition s bot price)).length := by
      rw [hsells, List.length_map]
    have hsellsSide : ∀ d ∈ sells, d.side = Side.sell := by
      intro d hd
      rw [hsells] at hd
      obtain ⟨p, _, rfl⟩ := List.mem_map.mp hd
      rfl
    by_cases h2 : remaining.isEmpty = true
    · rw [if_pos h2]
      have hrnil : remaining = [] := List.isEmpty_iff.mp h2
      refine ⟨sells, [], by simp, hsellsSide, by simp, by simp, ?_, ?_⟩
      · rw [hsellsLen]; omega
      · simp only [List.length_nil]
        rw [hsellsLen]
        have : remaining.length = 0 := by rw [hrnil]; rfl
        omega
    · rw [if_neg h2]
      split_ifs with h3
      · refine ⟨sells, [buyDecision bot price], rfl, hsellsSide, ?_, by simp, ?_, ?_⟩
        · intro d hd
          rw [List.mem_singleton] at hd
          rw [hd]
          rfl
        · rw [hsellsLen]; omega
        · simp only [List.length_append, List.length_singleton]
          rw [hsellsLen]
          omega
      · refine ⟨sells, [], by simp, hsellsSide, by simp, by simp, ?_, ?_⟩
        · rw [hsellsLen]; omega
        · simp only [List.length_nil]
          rw [hsellsLen]
          omega

theorem countSells_append_of_sides (ks bs : List Decision)
    (hks : ∀ d ∈ ks, d.side = Side.sell) (hbs : ∀ d ∈ bs, d.side = Side.buy) :
    countSells (ks ++ bs) = ks.length := by
  unfold countSells
  rw [List.filter_append]
  rw [List.filter_eq_self.mpr (fun d hd => by rw [hks d hd]; rfl)]
  rw [List.filter_eq_nil_iff.mpr (fun d hd => by rw [hbs d hd]; simp)]
  simp

theorem countBuys_append_of_sides (ks bs : List Decision)
    (hks : ∀ d ∈ ks, d.side = Side.sell) (hbs : ∀ d ∈ bs, d.side = Side.buy) :
    countBuys (ks ++ bs) = bs.length := by
  unfold countBuys
  rw [List.filter_append]
  rw [List.filter_eq_nil_iff.mpr (fun d hd => by rw [hks d hd]; simp)]
  rw [List.filter_eq_self.mpr (fun d hd => by rw [hbs d hd]; rfl)]
  simp

/-! ## C10: position-count bookkeeping of decide_trade -/

/-- C10.  For every call to decide_trade, the returned positions list
length equals the input positions list length plus the number of buy
decisions minus the number of sell decisions emitted by that call. -/
theorem decide_trade_positions_length (s : StrategySettings) (bot : TradingBot)
    (price : ℚ) (st : BotState) (prev : Option ℚ) :
    ((decide_trade s bot price st prev).2.positions.length : ℤ)
      = (st.positions.length : ℤ)
        + countBuys (decide_trade s bot price st prev).1
        - countSells (decide_trade s bot price st prev).1 := by
  obtain ⟨ks, bs, hds, hks, hbs, _, hk, hlen⟩ := decide_trade_shape s bot price st prev
  rw [hds, countSells_append_of_sides ks bs hks hbs, countBuys_append_of_sides ks bs hks hbs]
  omega

/-! ## C3: order of decisions within one tick -/

/-- Counterexample to C3: a tick that emits both a sell (of the second,
low-entry position) and a grid buy returns them as `[SELL, BUY]` — the
buy comes last, not first. -/
theorem decide_trade_buy_not_first :
    ¬ buysPrecedeSells (decide_trade exSettings exBot 139
      ⟨[⟨1, 150, 150, 0⟩, ⟨1, 100, 150, 0⟩], some 130, [140], 0⟩ (some 140)).1 := by
  have hds : (decide_trade exSettings exBot 139
      ⟨[⟨1, 150, 150, 0⟩, ⟨1, 100, 150, 0⟩], some 130, [140], 0⟩ (some 140)).1
      = [⟨Side.sell, 1, 139⟩, ⟨Side.buy, 100/139, 139⟩] := by
    norm_num [decide_trade, sellCondition, updateHighest, mkPosition, buyDecision,
      exSettings, exBot, List.filter]
  rw [hds]
  intro h
  have h10 := h ⟨1, by norm_num⟩ ⟨0, by norm_num⟩ rfl rfl
  exact Nat.not_lt_zero 1 h10

/-- C3 (amended).  In every decide_trade call's returned decisions list,
every SELL decision precedes every BUY decision; in particular, on a tick
that emits both sells and a grid buy, the sells come first and the buy is
last. -/
theorem decide_trade_sells_precede_buys (s : StrategySettings) (bot : TradingBot)
    (price : ℚ) (st : BotState) (prev : Option ℚ) :
    sellsPrecedeBuys (decide_trade s bot price st prev).1 := by
  obtain ⟨ks, bs, hds, hks, hbs, _, _, _⟩ := decide_trade_shape s bot price st prev
  rw [hds]
  intro i j hi hj
  have hiLt : (i : ℕ) < ks.length := by
    by_contra hle
    push_neg at hle
    have hbound : (i : ℕ) - ks.length < bs.length := by
      have := i.isLt
      simp only [List.length_append] at this
      omega
    have hgij : (ks ++ bs).get i = bs.get ⟨(i : ℕ) - ks.length, hbound⟩ := by
      simp only [List.get_eq_getElem]
      exact List.getElem_append_right hle
    rw [hgij] at hi
    have hside := hbs (bs.get ⟨(i : ℕ) - ks.length, hbound⟩) (List.get_mem bs _ hbound)
    rw [hside] at hi
    exact absurd hi (by simp)
  have hjGe : ks.length ≤ (j : ℕ) := by
    by_contra hlt
    push_neg at hlt
    have hgj : (ks ++ bs).get j = ks.get ⟨(j : ℕ), hlt⟩ := by
      simp only [List.get_eq_getElem]
      exact List.getElem_append_left hlt
    rw [hgj] at hj
    have hside := hks (ks.get ⟨(j : ℕ), hlt⟩) (List.get_mem ks _ hlt)
    rw [hside] at hj
    exact absurd hj (by simp)
  omega

/-! ## C2: lowest_price after a buy -/

/-- Counterexample to C2: a grid buy resets `lowest_price` to the buy
price, not to null. -/
theorem decide_trade_grid_buy_lowest_not_none :
    (∃ d ∈ (decide_trade exSettings exBot 139
        ⟨[⟨1, 150, 150, 0⟩], some 130, [140], 0⟩ (some 140)).1, d.side = Side.buy) ∧
    (decide_trade exSettings exBot 139
        ⟨[⟨1, 150, 150, 0⟩], some 130, [140], 0⟩ (some 140)).2.lowest_price ≠ none := by
  have heval : decide_trade exSettings exBot 139
      ⟨[⟨1, 150, 150, 0⟩], some 130, [140], 0⟩ (some 140)
      = ([⟨Side.buy, 100/139, 139⟩],
         ⟨[⟨1, 150, 150, 0⟩, ⟨100/139, 139, 139, 1/5⟩], some 139, [140], 1⟩) := by
    norm_num [decide_trade, sellCondition, updateHighest, mkPosition, buyDecision,
      exSettings, exBot, List.filter]
  rw [heval]
  exact ⟨⟨⟨Side.buy, 100/139, 139⟩, List.mem_singleton_self _, rfl⟩, by simp⟩

/-- C2 (amended).  On a buy emitted from the idle state (cycle-opening
buy) the returned `lowest_price` is null; on a grid buy (positions open on
entry) the returned `lowest_price` is the buy price. -/
theorem decide_trade_lowest_after_buy (s : StrategySettings) (bot : TradingBot)
    (price : ℚ) (st : BotState) (prev : Option ℚ)
    (h : ∃ d ∈ (decide_trade s bot price st prev).1, d.side = Side.buy) :
    (st.positions = [] → (decide_trade s bot price st prev).2.lowest_price = none) ∧
    (st.positions ≠ [] → (decide_trade s bot price st prev).2.lowest_price = some price) := by
  by_cases hE : st.positions.isEmpty = true
  · have hnil : st.positions = [] := List.isEmpty_iff.mp hE
    rw [decide_trade, if_pos hE] at h ⊢
    by_cases hr : bot.min_price ≤ price ∧ price ≤ bot.max_price
    · rw [if_pos hr]
      exact ⟨fun _ => rfl, fun hc => absurd hnil hc⟩
    · rw [if_neg hr] at h
      obtain ⟨d, hd, _⟩ := h
      exact absurd hd (List.not_mem_nil d)
  · have hnnil : st.positions ≠ [] := by
      intro hc
      rw [hc] at hE
      exact hE rfl
    rw [decide_trade, if_neg hE] at h ⊢
    simp only [] at h ⊢
    by_cases h2 : ((st.positions.map (updateHighest price)).filter
        (fun p => !(sellCondition s bot price p))).isEmpty = true
    · rw [if_pos h2] at h
      obtain ⟨d, hd, hside⟩ := h
      obtain ⟨p, _, rfl⟩ := List.mem_map.mp hd
      exact absurd hside (by simp)
    · rw [if_neg h2] at h ⊢
      split_ifs at h ⊢ with h3
      · exact ⟨fun hc => absurd hc hnnil, fun _ => rfl⟩
      · obtain ⟨d, hd, hside⟩ := h
        obtain ⟨p, _, rfl⟩ := List.mem_map.mp hd
        exact absurd hside (by simp)

/-- Witness for C2 (amended) at the cycle-opening buy of the scenario
configuration. -/
theorem decide_trade_lowest_after_buy_witness :
    (idleState.positions = [] →
      (decide_trade exSettings exBot 150 idleState none).2.lowest_price = none) ∧
    (idleState.positions ≠ [] →
      (decide_trade exSettings exBot 150 idleState none).2.lowest_price = some 150) :=
  decide_trade_lowest_after_buy exSettings exBot 150 idleState none (by
    refine ⟨buyDecision exBot 150, ?_, rfl⟩
    have hds : (decide_trade exSettings exBot 150 idleState none).1
        = [buyDecision exBot 150] := by
      norm_num [decide_trade, idleState, exSettings, exBot]
    rw [hds]
    exact List.mem_singleton_self _)

/-! ## C4: the idle-state invariant -/

/-- Counterexample to C4: on a valid configuration, a decide_trade call
entered idle with out-of-band price returns its (arbitrary) input state
unchanged, so the returned state can have `positions = []` together with a
nonempty `grid_prices`. -/
theorem decide_trade_idle_fields_not_reset :
    ValidCfg exBot ∧
    (decide_trade exSettings exBot 300 ⟨[], some 5, [1], 2⟩ none).2.positions = [] ∧
    ¬ IdleInvariant (decide_trade exSettings exBot 300 ⟨[], some 5, [1], 2⟩ none).2 := by
  have heval : decide_trade exSettings exBot 300 ⟨[], some 5, [1], 2⟩ none
      = ([], ⟨[], some 5, [1], 2⟩) := by
    norm_num [decide_trade, exSettings, exBot]
  rw [heval]
  refine ⟨by norm_num [ValidCfg, exBot], rfl, ?_⟩
  intro h
  exact absurd (h rfl).2.1 (by simp)

/-- C4 (amended).  decide_trade preserves the idle-state invariant: if the
input state satisfies `positions = [] → lowest_price = null ∧ grid_prices
= [] ∧ next_grid_index = 0`, so does the returned state. -/
theorem decide_trade_preserves_idle_invariant (s : StrategySettings) (bot : TradingBot)
    (price : ℚ) (st : BotState) (prev : Option ℚ) (h : IdleInvariant st) :
    IdleInvariant (decide_trade s bot price st prev).2 := by
  by_cases hE : st.positions.isEmpty = true
  · rw [decide_trade, if_pos hE]
    by_cases hr : bot.min_price ≤ price ∧ price ≤ bot.max_price
    · rw [if_pos hr]
      intro hc
      exact absurd hc (by simp)
    · rw [if_neg hr]
      exact h
  · rw [decide_trade, if_neg hE]
    simp only []
    by_cases h2 : ((st.positions.map (updateHighest price)).filter
        (fun p => !(sellCondition s bot price p))).isEmpty = true
    · rw [if_pos h2]
      intro _
      exact ⟨rfl, rfl, rfl⟩
    · rw [if_neg h2]
      split_ifs with h3
      · intro hc
        exact absurd hc (by simp)
      · intro hc
        rw [List.isEmpty_iff] at h2
        exact absurd hc h2

/-- Witness for C4 (amended) at a concrete idle input. -/
theorem decide_trade_preserves_idle_invariant_witness :
    IdleInvariant (decide_trade exSettings exBot 300 idleState none).2 :=
  decide_trade_preserves_idle_invariant exSettings exBot 300 idleState none
    (fun _ => ⟨rfl, rfl, rfl⟩)

/-! ## C9: the optimizer on an empty price series -/

/-- C9.  `generate_parameter_grid` on an empty price list indexes position
−1 of the empty sorted list and raises IndexError; `optimize_parameters`
on an empty series — or on one whose train split is empty, as for a
single price at the default `train_ratio = 0.7` — propagates that
IndexError instead of returning an empty combination list or the
ValueError "no valid combinations". -/
theorem optimizer_empty_prices_index_error :
    generate_parameter_grid [] none none = Except.error PyError.indexError ∧
    optimize_parameters exSettings "BTCUSDC" [] 1000 (7/10) none none 10 =
      Except.error PyError.indexError ∧
    optimize_parameters exSettings "BTCUSDC" [100] 1000 (7/10) none none 10 =
      Except.error PyError.indexError := by
  have hgen : generate_parameter_grid [] none none = Except.error PyError.indexError := rfl
  refine ⟨hgen, ?_, ?_⟩
  · rw [optimize_parameters]
    rw [List.take_nil, hgen]
    rfl
  · have hfloor : (⌊(([(100 : ℚ)].length : ℚ)) * (7/10 : ℚ)⌋).toNat = 0 := by norm_num
    rw [optimize_parameters, hfloor, List.take_zero, hgen]
    rfl

/-! ## C1: reconstruction of state from the trade log -/

theorem decisionsToTrades_length (ds : List Decision) (ts : ℕ) :
    (decisionsToTrades ds ts).length = ds.length := by
  induction ds generalizing ts with
  | nil => rfl
  | cons d ds ih => simp [decisionsToTrades, ih]

theorem decisionsToTrades_append (ds1 ds2 : List Decision) (ts : ℕ) :
    decisionsToTrades (ds1 ++ ds2) ts
      = decisionsToTrades ds1 ts ++ decisionsToTrades ds2 (ts + ds1.length) := by
  induction ds1 generalizing ts with
  | nil => simp [decisionsToTrades]
  | cons d ds ih =>
    have lhs : decisionsToTrades ((d :: ds) ++ ds2) ts
        = ⟨d.side, d.entry_price, d.quantity, ts⟩ :: decisionsToTrades (ds ++ ds2) (ts + 1) :=
      rfl
    have rhs : decisionsToTrades (d :: ds) ts
        = ⟨d.side, d.entry_price, d.quantity, ts⟩ :: decisionsToTrades ds (ts + 1) := rfl
    rw [lhs, rhs, ih (ts + 1), List.cons_append]
    have harg : ts + 1 + ds.length = ts + (d :: ds).length := by
      rw [List.length_cons]
      omega
    rw [harg]

theorem decisionsToTrades_sides (ds : List Decision) (ts : ℕ) (x : Side)
    (h : ∀ d ∈ ds, d.side = x) :
    ∀ t ∈ decisionsToTrades ds ts, t.trade_type = x := by
  induction ds generalizing ts with
  | nil => intro t ht; exact absurd ht (List.not_mem_nil t)
  | cons d ds ih =>
    intro t ht
    rw [decisionsToTrades] at ht
    rcases List.mem_cons.mp ht with h1 | h2
    · rw [h1]
      exact h d (List.mem_cons_self d ds)
    · exact ih (ts + 1) (fun d' hd' => h d' (List.mem_cons_of_mem _ hd')) t h2

theorem decisionsToTrades_created_at_bounds (ds : List Decision) (ts : ℕ) :
    ∀ t ∈ decisionsToTrades ds ts, ts ≤ t.created_at ∧ t.created_at < ts + ds.length := by
  induction ds generalizing ts with
  | nil => intro t ht; exact absurd ht (List.not_mem_nil t)
  | cons d ds ih =>
    intro t ht
    rw [decisionsToTrades] at ht
    rcases List.mem_cons.mp ht with h1 | h2
    · rw [h1]
      simp only [List.length_cons]
      omega
    · have := ih (ts + 1) t h2
      simp only [List.length_cons]
      omega

theorem decisionsToTrades_sorted (ds : List Decision) (ts : ℕ) :
    List.Sorted tradeLe (decisionsToTrades ds ts) := by
  induction ds generalizing ts with
  | nil => exact List.sorted_nil
  | cons d ds ih =>
    rw [decisionsToTrades, List.sorted_cons]
    refine ⟨?_, ih (ts + 1)⟩
    intro t ht
    have := (decisionsToTrades_created_at_bounds ds (ts + 1) t ht).1
    show ts ≤ t.created_at
    omega

theorem foldl_replayTrade_sells (s : StrategySettings) (ts : List Trade)
    (h : ∀ t ∈ ts, t.trade_type = Side.sell) (acc : List Position) :
    ts.foldl (replayTrade s) acc = acc.drop ts.length := by
  induction ts generalizing acc with
  | nil => simp
  | cons t ts ih =>
    rw [List.foldl_cons]
    have hstep : replayTrade s acc t = acc.tail := by
      rw [replayTrade, h t (List.mem_cons_self t ts)]
    rw [hstep, ih (fun t' ht' => h t' (List.mem_cons_of_mem _ ht')) acc.tail]
    rw [← List.drop_one acc, List.drop_drop, List.length_cons, Nat.add_comm]

/-- One tick of the reconstruction replay: folding the tick's trade rows
into a position list of the same length as the entering state's positions
yields a list of the same length as the returned state's positions. -/
theorem replay_tick (s : StrategySettings) (bot : TradingBot) (price : ℚ)
    (st : BotState) (prev : Option ℚ) (acc : List Position) (ts : ℕ)
    (hlen : acc.length = st.positions.length) :
    ((decisionsToTrades (decide_trade s bot price st prev).1 ts).foldl
        (replayTrade s) acc).length
      = (decide_trade s bot price st prev).2.positions.length := by
  obtain ⟨ks, bs, hds, hks, hbs, hbs1, hk, hlen2⟩ := decide_trade_shape s bot price st prev
  rw [hds, decisionsToTrades_append, List.foldl_append]
  rw [foldl_replayTrade_sells s _ (decisionsToTrades_sides ks ts Side.sell hks) acc]
  rw [decisionsToTrades_length]
  have hdrop : (acc.drop ks.length).length = st.positions.length - ks.length := by
    rw [List.length_drop, hlen]
  rcases bs with _ | ⟨b, bs'⟩
  · simp only [decisionsToTrades, List.foldl_nil]
    simp only [List.length_nil] at hlen2
    omega
  · have hbs' : bs' = [] := by
      cases bs' with
      | nil => rfl
      | cons x xs => simp at hbs1
    subst hbs'
    have hb : b.side = Side.buy := hbs b (List.mem_cons_self b [])
    simp only [decisionsToTrades, List.foldl_cons, List.foldl_nil]
    have hbuy : replayTrade s (acc.drop ks.length)
        ⟨b.side, b.entry_price, b.quantity, ts + ks.length⟩
        = (acc.drop ks.length)
            ++ [⟨b.quantity, b.entry_price, b.entry_price,
                 b.quantity * b.entry_price * s.fee_pct⟩] := by
      rw [replayTrade, hb]
    rw [hbuy, List.length_append]
    simp only [List.length_cons, List.length_nil] at hlen2 ⊢
    omega

/-- Invariant of the bot run: the trade log stays sorted by `created_at`
with timestamps below its length, and replaying it from scratch yields a
position list of the same length as the live state's. -/
theorem runTicksFrom_invariant (s : StrategySettings) (bot : TradingBot)
    (prices : List ℚ) :
    ∀ (st : BotState) (prev : Option ℚ) (log : List Trade),
      (∀ t ∈ log, t.created_at < log.length) →
      List.Sorted tradeLe log →
      (log.foldl (replayTrade s) []).length = st.positions.length →
      (∀ t ∈ (runTicksFrom s bot st prev log prices).2,
          t.created_at < (runTicksFrom s bot st prev log prices).2.length) ∧
      List.Sorted tradeLe (runTicksFrom s bot st prev log prices).2 ∧
      ((runTicksFrom s bot st prev log prices).2.foldl (replayTrade s) []).length
        = (runTicksFrom s bot st prev log prices).1.positions.length := by
  induction prices with
  | nil =>
    intro st prev log h1 h2 h3
    exact ⟨h1, h2, h3⟩
  | cons p ps ih =>
    intro st prev log h1 h2 h3
    simp only [runTicksFrom]
    apply ih
    · intro t ht
      rw [List.length_append, decisionsToTrades_length]
      rcases List.mem_append.mp ht with hl | hc
      · have := h1 t hl
        omega
      · have := (decisionsToTrades_created_at_bounds _ _ t hc).2
        omega
    · apply List.pairwise_append.mpr
      refine ⟨h2, decisionsToTrades_sorted _ _, ?_⟩
      intro a ha b hb
      have hA := h1 a ha
      have hB := (decisionsToTrades_created_at_bounds _ _ b hb).1
      show a.created_at ≤ b.created_at
      omega
    · rw [List.foldl_append]
      exact replay_tick s bot p st prev _ _ h3

/-- Counterexample to C1: on the spec's scenario configuration, the price
path `150, 142, 140, 139, 139.4, 139.3, 143, 142.5` buys at 150 and at
139.3, then sells only the second (lower-entry) position at 142.5.  The
live state keeps the 150-entry position, but the FIFO replay of the trade
log pops the 150-entry buy and keeps the 139.3-entry one: the
reconstructed positions differ in entry price and quantity. -/
theorem reconstruct_roundtrip_fails :
    ValidCfg exBot ∧
    ((reconstruct_state_from_trades exSettings exBot
        (runTicks exSettings exBot [150, 142, 140, 139, 697/5, 1393/10, 143, 285/2]).2).positions.map
          (fun p => (p.entry, p.qty)))
      ≠ ((runTicks exSettings exBot [150, 142, 140, 139, 697/5, 1393/10, 143, 285/2]).1.positions.map
          (fun p => (p.entry, p.qty))) := by
  constructor
  · norm_num [ValidCfg, exBot]
  · have h9 : (9 : ℤ).toNat = 9 := rfl
    norm_num [runTicks, runTicksFrom, decide_trade, decisionsToTrades, sellCondition,
      updateHighest, mkPosition, buyDecision, firstGridIndexBelow, compute_grid,
      List.filter, List.findIdx?, List.range_succ, reconstruct_state_from_trades,
      replayTrade, List.insertionSort, List.orderedInsert, tradeLe,
      exSettings, exBot, idleState, h9]

/-- C1 (amended).  For every configuration and every trade log produced by
a run of decide_trade calls from the idle state (trades appended in
decision order with strictly increasing timestamps),
reconstruct_state_from_trades returns a positions list of the same length
as the positions list of the state after the last call.  (Element-wise
equality of entries and quantities fails: decide_trade closes whichever
positions meet their own sell condition, while the replay pops the oldest
open position.) -/
theorem reconstruct_positions_length (s : StrategySettings) (bot : TradingBot)
    (prices : List ℚ) :
    (reconstruct_state_from_trades s bot (runTicks s bot prices).2).positions.length
      = (runTicks s bot prices).1.positions.length := by
  obtain ⟨_, hsorted, hreplay⟩ := runTicksFrom_invariant s bot prices idleState none []
    (by intro t ht; exact absurd ht (List.not_mem_nil t)) List.sorted_nil rfl
  rw [runTicks]
  rw [reconstruct_state_from_trades]
  simp only []
  rw [List.Sorted.insertionSort_eq hsorted]
  rcases hop : (runTicksFrom s bot idleState none [] prices).2.foldl (replayTrade s) []
    with _ | ⟨p0, rest⟩
  · rw [hop] at hreplay
    simp only [List.length_nil] at hreplay
    simp [← hreplay]
  · rw [hop] at hreplay
    simp only [List.length_cons] at hreplay
    simp [← hreplay]

/-! ## C7: backtest trade counts -/

theorem foldl_applyDecision_sells (fee : ℚ) (ds : List Decision)
    (h : ∀ d ∈ ds, d.side = Side.sell) :
    ∀ acc : BTAcc, ds.length ≤ acc.open_buys.length →
      (ds.foldl (applyDecision fee) acc).open_buys = acc.open_buys.drop ds.length ∧
      (ds.foldl (applyDecision fee) acc).num_sells = acc.num_sells + ds.length ∧
      (ds.foldl (applyDecision fee) acc).num_buys = acc.num_buys := by
  induction ds with
  | nil =>
    intro acc _
    exact ⟨rfl, rfl, rfl⟩
  | cons d ds ih =>
    intro acc hlen
    have hd : d.side = Side.sell := h d (List.mem_cons_self d ds)
    obtain ⟨b, rest, hob⟩ : ∃ b rest, acc.open_buys = b :: rest := by
      cases hob : acc.open_buys with
      | nil =>
        rw [hob] at hlen
        simp at hlen
      | cons b rest => exact ⟨b, rest, rfl⟩
    have hstep1 : (applyDecision fee acc d).open_buys = rest := by
      rw [applyDecision, hd, hob]
    have hstep2 : (applyDecision fee acc d).num_sells = acc.num_sells + 1 := by
      rw [applyDecision, hd, hob]
    have hstep3 : (applyDecision fee acc d).num_buys = acc.num_buys := by
      rw [applyDecision, hd, hob]
    rw [List.foldl_cons]
    have hlen' : ds.length ≤ (applyDecision fee acc d).open_buys.length := by
      rw [hstep1]
      rw [hob] at hlen
      simp only [List.length_cons] at hlen
      omega
    obtain ⟨ho, hs, hb⟩ := ih (fun d' hd' => h d' (List.mem_cons_of_mem _ hd'))
      (applyDecision fee acc d) hlen'
    refine ⟨?_, ?_, ?_⟩
    · rw [ho, hstep1, hob, List.length_cons, List.drop_succ_cons]
    · rw [hs, hstep2, List.length_cons]
      omega
    · rw [hb, hstep3]

theorem applyDecision_buy (fee : ℚ) (acc : BTAcc) (d : Decision)
    (hd : d.side = Side.buy) :
    (applyDecision fee acc d).open_buys = acc.open_buys ++ [(d.entry_price, d.quantity)] ∧
    (applyDecision fee acc d).num_sells = acc.num_sells ∧
    (applyDecision fee acc d).num_buys = acc.num_buys + 1 := by
  rw [applyDecision, hd]
  exact ⟨rfl, rfl, rfl⟩

/-- One backtest tick preserves the accounting invariant tying the
external FIFO of open buys to the strategy state's positions. -/
theorem btStep_invariant (s : StrategySettings) (bot : TradingBot) (total : ℚ)
    (L : BTLoop) (price : ℚ)
    (h1 : L.acc.open_buys.length = L.state.positions.length)
    (h2 : L.acc.num_buys = L.acc.num_sells + L.acc.open_buys.length) :
    (btStep s bot total L price).acc.open_buys.length
        = (btStep s bot total L price).state.positions.length ∧
    (btStep s bot total L price).acc.num_buys
        = (btStep s bot total L price).acc.num_sells
          + (btStep s bot total L price).acc.open_buys.length := by
  have hacc : (btStep s bot total L price).acc
      = (decide_trade s bot price L.state L.prev).1.foldl (applyDecision s.fee_pct) L.acc :=
    rfl
  have hstate : (btStep s bot total L price).state
      = (decide_trade s bot price L.state L.prev).2 := rfl
  rw [hacc, hstate]
  obtain ⟨ks, bs, hds, hks, hbs, hbs1, hk, hlen⟩ :=
    decide_trade_shape s bot price L.state L.prev
  rw [hds, List.foldl_append]
  have hkle : ks.length ≤ L.acc.open_buys.length := by omega
  obtain ⟨ho, hs, hb⟩ := foldl_applyDecision_sells s.fee_pct ks hks L.acc hkle
  have hodrop : ((ks.foldl (applyDecision s.fee_pct) L.acc).open_buys).length
      = L.acc.open_buys.length - ks.length := by
    rw [ho, List.length_drop]
  rcases bs with _ | ⟨b, bs'⟩
  · simp only [List.foldl_nil]
    simp only [List.length_nil] at hlen
    constructor
    · omega
    · omega
  · have hbs' : bs' = [] := by
      cases bs' with
      | nil => rfl
      | cons x xs => simp at hbs1
    subst hbs'
    have hbuy := applyDecision_buy s.fee_pct (ks.foldl (applyDecision s.fee_pct) L.acc) b
      (hbs b (List.mem_cons_self b []))
    simp only [List.foldl_cons, List.foldl_nil]
    simp only [List.length_cons, List.length_nil] at hlen
    constructor
    · rw [hbuy.1, List.length_append, hodrop]
      simp only [List.length_cons, List.length_nil]
      omega
    · rw [hbuy.1, hbuy.2.1, hbuy.2.2, hb, hs, List.length_append, hodrop]
      simp only [List.length_cons, List.length_nil]
      omega

/-- C7.  For every run_backtest call with `total_amount > 0`, the result
satisfies `num_trades = num_buys + num_sells`, `num_sells ≤ num_buys` and
`final_open_positions = num_buys − num_sells`. -/
theorem run_backtest_counts (s : StrategySettings) (symbol : String)
    (close_prices : List ℚ) (mn mx total sell : ℚ) (gl : ℤ) (h : 0 < total) :
    (run_backtest s symbol close_prices mn mx total sell gl).num_trades
      = (run_backtest s symbol close_prices mn mx total sell gl).num_buys
        + (run_backtest s symbol close_prices mn mx total sell gl).num_sells ∧
    (run_backtest s symbol close_prices mn mx total sell gl).num_sells
      ≤ (run_backtest s symbol close_prices mn mx total sell gl).num_buys ∧
    ((run_backtest s symbol close_prices mn mx total sell gl).final_open_positions : ℤ)
      = ((run_backtest s symbol close_prices mn mx total sell gl).num_buys : ℤ)
        - ((run_backtest s symbol close_prices mn mx total sell gl).num_sells : ℤ) := by
  have hfold : ∀ (ps : List ℚ) (L : BTLoop),
      L.acc.open_buys.length = L.state.positions.length →
      L.acc.num_buys = L.acc.num_sells + L.acc.open_buys.length →
      (ps.foldl (btStep s ⟨mn, mx, total, sell, gl⟩ total) L).acc.open_buys.length
          = (ps.foldl (btStep s ⟨mn, mx, total, sell, gl⟩ total) L).state.positions.length ∧
      (ps.foldl (btStep s ⟨mn, mx, total, sell, gl⟩ total) L).acc.num_buys
          = (ps.foldl (btStep s ⟨mn, mx, total, sell, gl⟩ total) L).acc.num_sells
            + (ps.foldl (btStep s ⟨mn, mx, total, sell, gl⟩ total) L).acc.open_buys.length := by
    intro ps
    induction ps with
    | nil =>
      intro L hA hB
      exact ⟨hA, hB⟩
    | cons p ps ih =>
      intro L hA hB
      rw [List.foldl_cons]
      obtain ⟨hA', hB'⟩ := btStep_invariant s ⟨mn, mx, total, sell, gl⟩ total L p hA hB
      exact ih _ hA' hB'
  obtain ⟨hA, hB⟩ := hfold close_prices ⟨idleState, none, ⟨[], 0, 0, 0, 0⟩, total, 0⟩ rfl rfl
  have hbuys : (run_backtest s symbol close_prices mn mx total sell gl).num_buys
      = (close_prices.foldl (btStep s ⟨mn, mx, total, sell, gl⟩ total)
          ⟨idleState, none, ⟨[], 0, 0, 0, 0⟩, total, 0⟩).acc.num_buys := rfl
  have hsells : (run_backtest s symbol close_prices mn mx total sell gl).num_sells
      = (close_prices.foldl (btStep s ⟨mn, mx, total, sell, gl⟩ total)
          ⟨idleState, none, ⟨[], 0, 0, 0, 0⟩, total, 0⟩).acc.num_sells := rfl
  have hopen : (run_backtest s symbol close_prices mn mx total sell gl).final_open_positions
      = (close_prices.foldl (btStep s ⟨mn, mx, total, sell, gl⟩ total)
          ⟨idleState, none, ⟨[], 0, 0, 0, 0⟩, total, 0⟩).acc.open_buys.length := rfl
  have htrades : (run_backtest s symbol close_prices mn mx total sell gl).num_trades
      = (close_prices.foldl (btStep s ⟨mn, mx, total, sell, gl⟩ total)
          ⟨idleState, none, ⟨[], 0, 0, 0, 0⟩, total, 0⟩).acc.num_buys
        + (close_prices.foldl (btStep s ⟨mn, mx, total, sell, gl⟩ total)
          ⟨idleState, none, ⟨[], 0, 0, 0, 0⟩, total, 0⟩).acc.num_sells := rfl
  refine ⟨?_, ?_, ?_⟩
  · rw [htrades, hbuys, hsells]
  · rw [hsells, hbuys]
    omega
  · rw [hopen, hbuys, hsells]
    omega

/-- Witness for C7 at a one-tick backtest. -/
theorem run_backtest_counts_witness :
    (0 : ℚ) < 1000 ∧
    (run_backtest exSettings "BTCUSDC" [150] 100 200 1000 2 10).num_trades
      = (run_backtest exSettings "BTCUSDC" [150] 100 200 1000 2 10).num_buys
        + (run_backtest exSettings "BTCUSDC" [150] 100 200 1000 2 10).num_sells :=
  ⟨by norm_num,
   (run_backtest_counts exSettings "BTCUSDC" [150] 100 200 1000 2 10 (by norm_num)).1⟩

/-! ## C8: screening progress publications -/

theorem update_progress_results_sorted (total : ℕ) (R : List ResultRow) (p : ℕ)
    (st : String) :
    List.Sorted pnlGe (update_progress total R p st).results ∧
    (update_progress total R p st).results.length ≤ 50 := by
  constructor
  · exact List.Pairwise.sublist (List.take_sublist 50 (sortResultsDesc R))
      (List.sorted_insertionSort pnlGe R)
  · calc (update_progress total R p st).results.length
        = min 50 (sortResultsDesc R).length := List.length_take 50 (sortResultsDesc R)
      _ ≤ 50 := min_le_left _ _

theorem update_progress_progress_le (total : ℕ) (R : List ResultRow) (p : ℕ)
    (st : String) (hp : p ≤ total) :
    (update_progress total R p st).progress ≤ 100 := by
  show (if 0 < total then p * 100 / total else 0) ≤ 100
  split_ifs with ht
  · calc p * 100 / total ≤ total * 100 / total :=
        Nat.div_le_div_right (Nat.mul_le_mul_right 100 hp)
      _ = 100 := by
        rw [Nat.mul_comm]
        exact Nat.mul_div_cancel 100 ht
  · omega

theorem screeningLoop_mem (total : ℕ) (os : List (Option ResultRow)) :
    ∀ (results : List ResultRow) (i : ℕ),
      ∀ b ∈ (screeningLoop total os results i).1,
        ∃ R p, b = update_progress total R p "running" ∧ i < p ∧ p ≤ i + os.length := by
  induction os with
  | nil =>
    intro results i b hb
    exact absurd hb (List.not_mem_nil b)
  | cons o os ih =>
    intro results i b hb
    simp only [screeningLoop] at hb
    rcases List.mem_cons.mp hb with h1 | h2
    · refine ⟨_, i + 1, h1, by omega, ?_⟩
      simp only [List.length_cons]
      omega
    · obtain ⟨R, p, hbeq, hp1, hp2⟩ := ih _ (i + 1) b h2
      refine ⟨R, p, hbeq, by omega, ?_⟩
      simp only [List.length_cons]
      omega

theorem screeningLoop_processed_map (total : ℕ) (os : List (Option ResultRow)) :
    ∀ (results : List ResultRow) (i : ℕ),
      (screeningLoop total os results i).1.map (fun b => b.processed_symbols)
        = (List.range os.length).map (fun j => i + j + 1) := by
  induction os with
  | nil =>
    intro results i
    rfl
  | cons o os ih =>
    intro results i
    simp only [screeningLoop, List.map_cons, List.length_cons, update_progress]
    rw [ih _ (i + 1), List.range_succ_eq_map, List.map_cons, List.map_map]
    have hmap : (List.range os.length).map ((fun j => i + j + 1) ∘ Nat.succ)
        = (List.range os.length).map (fun j => i + 1 + j + 1) := by
      apply List.map_congr_left
      intro a _
      simp only [Function.comp_apply]
      omega
    rw [hmap]

/-- C8.  Over the publication trace of one screening job (whatever each
symbol's outcome): every published blob has `results` sorted by
`best_pnl_pct` descending and truncated to at most 50 entries, `progress ≤
100` (it is a ℕ, so `0 ≤ progress` is automatic) and `processed ≤ total`;
`processed` is non-decreasing across successive publications; and the
final publication has `status = "completed"` and `processed = total`. -/
theorem run_screening_progress_invariants (outcomes : List (Option ResultRow)) :
    (∀ b ∈ run_screening_pubs outcomes,
        List.Sorted pnlGe b.results ∧ b.results.length ≤ 50 ∧
        b.progress ≤ 100 ∧ b.processed_symbols ≤ outcomes.length) ∧
    List.Pairwise (fun a b => a.processed_symbols ≤ b.processed_symbols)
      (run_screening_pubs outcomes) ∧
    (∃ bl, (run_screening_pubs outcomes).getLast? = some bl ∧
      bl.status = "completed" ∧ bl.processed_symbols = outcomes.length) := by
  refine ⟨?_, ?_, ?_⟩
  · intro b hb
    simp only [run_screening_pubs] at hb
    rcases List.mem_cons.mp hb with h1 | h2
    · rw [h1]
      exact ⟨(update_progress_results_sorted _ _ _ _).1,
        (update_progress_results_sorted _ _ _ _).2,
        update_progress_progress_le _ _ _ _ (Nat.zero_le _),
        Nat.zero_le _⟩
    · rcases List.mem_append.mp h2 with h3 | h4
      · obtain ⟨R, p, hbeq, _, hp2⟩ := screeningLoop_mem outcomes.length outcomes [] 0 b h3
        rw [hbeq]
        refine ⟨(update_progress_results_sorted _ _ _ _).1,
          (update_progress_results_sorted _ _ _ _).2,
          update_progress_progress_le _ _ _ _ (by omega), ?_⟩
        show p ≤ outcomes.length
        omega
      · rw [List.mem_singleton] at h4
        rw [h4]
        exact ⟨(update_progress_results_sorted _ _ _ _).1,
          (update_progress_results_sorted _ _ _ _).2,
          update_progress_progress_le _ _ _ _ (le_refl _),
          le_refl _⟩
  · have hmapped : (run_screening_pubs outcomes).map (fun b => b.processed_symbols)
        = 0 :: ((List.range outcomes.length).map (fun j => 0 + j + 1)
            ++ [outcomes.length]) := by
      simp only [run_screening_pubs, List.map_cons, List.map_append]
      rw [screeningLoop_processed_map outcomes.length outcomes [] 0]
      rfl
    have hpw : List.Pairwise (fun a b : ℕ => a ≤ b)
        ((run_screening_pubs outcomes).map (fun b => b.processed_symbols)) := by
      rw [hmapped]
      apply List.pairwise_cons.mpr
      refine ⟨fun a _ => Nat.zero_le a, ?_⟩
      apply List.pairwise_append.mpr
      refine ⟨?_, List.pairwise_singleton _ _, ?_⟩
      · apply List.pairwise_map.mpr
        refine List.Pairwise.imp ?_ (List.pairwise_lt_range _)
        intro a b hab
        omega
      · intro a ha b hb
        rw [List.mem_singleton] at hb
        rw [hb]
        obtain ⟨j, hj, rfl⟩ := List.mem_map.mp ha
        rw [List.mem_range] at hj
        omega
    exact List.pairwise_map.mp hpw
  · refine ⟨update_progress outcomes.length
      (screeningLoop outcomes.length outcomes [] 0).2 outcomes.length "completed",
      ?_, rfl, rfl⟩
    simp only [run_screening_pubs]
    rw [List.getLast?_concat]

end Jobot
